import Mathlib

/- Verification development for the withings2weeks repository.

   It embeds the ISO-week range resolution of src/withings2weeks/weeks.py, the
   weekly pivot and pagination driver of src/withings2weeks/measure_client.py,
   and the CSV reading / range filtering of src/withings2weeks/cli.py.

   Dates are modelled as proleptic-Gregorian ordinal day numbers (as integers),
   exactly as in the CPython datetime module: day 1 is 0001-01-01, which is a
   Monday.  On integers, Lean `/` and `%` agree with Python floor division and
   modulo whenever the divisor is positive, which is the only case used here.
   Instants at Monday 00:00 are identified with their ordinal day; timezone
   attachment in weeks.py never changes the calendar day and is not modelled. -/

namespace W2W

/-- Leap-year rule of the Gregorian calendar (datetime._is_leap). -/
def isLeap (y : ℤ) : Prop := (y % 4 = 0 ∧ y % 100 ≠ 0) ∨ y % 400 = 0

instance (y : ℤ) : Decidable (isLeap y) := by unfold isLeap; infer_instance

/-- datetime._days_before_year: number of days before January 1st of `year`. -/
def daysBeforeYear (year : ℤ) : ℤ :=
  365 * (year - 1) + (year - 1) / 4 - (year - 1) / 100 + (year - 1) / 400

/-- Ordinal day number of January 1st of `year` (datetime._ymd2ord(year, 1, 1)). -/
def jan1Ord (year : ℤ) : ℤ := daysBeforeYear year + 1

/-- Gregorian year of an ordinal day, following the 400/100/4/1-year divmod
    decomposition in datetime._ord2ymd (only the year component is kept). -/
def yearOfOrd (ord : ℤ) : ℤ :=
  let n := ord - 1
  let n400 := n / 146097
  let r400 := n % 146097
  let n100 := r400 / 36524
  let r100 := r400 % 36524
  let n4 := r100 / 1461
  let r4 := r100 % 1461
  let n1 := r4 / 365
  let year := n400 * 400 + 1 + n100 * 100 + n4 * 4 + n1
  if n1 = 4 ∨ n100 = 4 then year - 1 else year

/-- datetime._isoweek1monday: ordinal of the Monday starting ISO week 1 of `year`. -/
def isoweek1monday (year : ℤ) : ℤ :=
  let firstday := jan1Ord year
  let firstweekday := (firstday + 6) % 7
  let week1monday := firstday - firstweekday
  if 3 < firstweekday then week1monday + 7 else week1monday

/-- An ISO year has 53 weeks iff January 1st falls on a Thursday, or on a
    Wednesday of a leap year (the week-53 check in datetime._isoweek_to_gregorian). -/
def isoLongYear (year : ℤ) : Prop :=
  jan1Ord year % 7 = 4 ∨ (jan1Ord year % 7 = 3 ∧ isLeap year)

instance (y : ℤ) : Decidable (isoLongYear y) := by unfold isoLongYear; infer_instance

/-- Argument validity for datetime.fromisocalendar(year, week, 1): the year must
    be within MINYEAR..MAXYEAR and the week must exist in that ISO year. -/
def isoWeekValid (year week : ℤ) : Prop :=
  1 ≤ year ∧ year ≤ 9999 ∧ 1 ≤ week ∧ (week ≤ 52 ∨ (week = 53 ∧ isoLongYear year))

instance (y w : ℤ) : Decidable (isoWeekValid y w) := by unfold isoWeekValid; infer_instance

/-- weeks.week_start: Monday 00:00 of the given ISO week, as an ordinal day.
    `none` models the ValueError raised by datetime.fromisocalendar. -/
def week_start (year week_num : ℤ) : Option ℤ :=
  if isoWeekValid year week_num then some (isoweek1monday year + 7 * (week_num - 1))
  else none

/-- weeks.week_following_start: Monday 00:00 of the week after the given ISO week;
    a ValueError from trying `week_num + 1` is caught and (year + 1, week 1) is
    tried instead, whose own failure propagates. -/
def week_following_start (year week_num : ℤ) : Option ℤ :=
  match week_start year (week_num + 1) with
  | some d => some d
  | none => week_start (year + 1) 1

/-- Core of datetime.date.isocalendar given the stored Gregorian year of the day. -/
def isocalCore (ord Y : ℤ) : ℤ × ℤ × ℤ :=
  let week := (ord - isoweek1monday Y) / 7
  let day := (ord - isoweek1monday Y) % 7
  if week < 0 then
    (Y - 1, (ord - isoweek1monday (Y - 1)) / 7 + 1, (ord - isoweek1monday (Y - 1)) % 7 + 1)
  else if 52 ≤ week ∧ isoweek1monday (Y + 1) ≤ ord then
    (Y + 1, 1, day + 1)
  else
    (Y, week + 1, day + 1)

/-- datetime.date.isocalendar on an ordinal day: (ISO year, ISO week, ISO weekday),
    following the CPython algorithm, with the stored Gregorian year recovered by
    `yearOfOrd`. -/
def isocalendar (ord : ℤ) : ℤ × ℤ × ℤ := isocalCore ord (yearOfOrd ord)

/-- Largest ordinal representable by datetime: December 31st of year 9999. -/
def maxOrd : ℤ := 3652059

/-- Python str.strip() on a list of characters: drop whitespace at both ends. -/
def pyStrip (s : List Char) : List Char :=
  ((s.dropWhile Char.isWhitespace).reverse.dropWhile Char.isWhitespace).reverse

/-- Numeric value of a digit string (most significant first). -/
def digitsVal (s : List Char) : ℤ :=
  s.foldl (fun a c => 10 * a + ((c.toNat : ℤ) - 48)) 0

/-- Python int(str): optional surrounding whitespace, optional sign, then decimal
    digits (digit-grouping underscores are not modelled; no token in this
    repository contains them). `none` models the ValueError. -/
def pyInt (s : List Char) : Option ℤ :=
  match pyStrip s with
  | [] => none
  | c :: rest =>
    if c = '+' then
      if rest ≠ [] ∧ rest.all Char.isDigit then some (digitsVal rest) else none
    else if c = '-' then
      if rest ≠ [] ∧ rest.all Char.isDigit then some (-digitsVal rest) else none
    else if (c :: rest).all Char.isDigit then some (digitsVal (c :: rest)) else none

/-- Python value.split(sep, 1) when `sep` occurs: characters before the first
    occurrence, and everything after it. -/
def splitOnFirst (sep : Char) : List Char → List Char × List Char
  | [] => ([], [])
  | c :: rest =>
    if c = sep then ([], rest)
    else ((splitOnFirst sep rest).1.cons c, (splitOnFirst sep rest).2)

/-- Python str(n).zfill(2). -/
def zfill2 (s : String) : String := if s.length < 2 then "0" ++ s else s

/-- The canonical week code built by weeks.py: f-string year ++ W ++ zero-padded week. -/
def weekCode (year week : ℤ) : String := toString year ++ "W" ++ zfill2 (toString week)

/-- weeks.parse_week_str: full form YYYYWww or bare digit-only week number resolved
    against the ISO year of `now`; `none` models the ValueError. -/
def parse_week_str (value : String) (nowIsoYear : ℤ) : Option (ℤ × ℤ) :=
  let v := pyStrip value.data
  if v = [] then none
  else if v.contains 'W' then
    match pyInt (splitOnFirst 'W' v).1, pyInt (splitOnFirst 'W' v).2 with
    | some year, some week => if 1 ≤ week ∧ week ≤ 53 then some (year, week) else none
    | _, _ => none
  else if v.all Char.isDigit then
    if 1 ≤ digitsVal v ∧ digitsVal v ≤ 53 then some (nowIsoYear, digitsVal v) else none
  else none

/-- weeks.WeekRange; `ending` stands for the Python field `end` (a Lean keyword). -/
structure WeekRange where
  start : ℤ
  ending : ℤ
  start_week_code : String
  end_week_code : String
deriving DecidableEq

/-- weeks.resolve_week_range on a reference `now` given as an ordinal day (the
    time-of-day component of `now` is never consulted).  `none` models a raised
    exception: parse/validation errors, and the OverflowError raised when
    `current week Monday - 7 days` would fall before 0001-01-01. -/
def resolve_week_range (start_week : String) (end_week : Option String) (nowOrd : ℤ) :
    Option WeekRange :=
  match parse_week_str start_week (isocalendar nowOrd).1 with
  | none => none
  | some (sy, sw) =>
    match week_start sy sw with
    | none => none
    | some start_dt =>
      match end_week with
      | some ew =>
        match parse_week_str ew (isocalendar nowOrd).1 with
        | none => none
        | some (ey, ewn) =>
          match week_following_start ey ewn with
          | none => none
          | some end_boundary =>
            some ⟨start_dt, end_boundary, weekCode sy sw, weekCode ey ewn⟩
      | none =>
        match week_start (isocalendar nowOrd).1 (isocalendar nowOrd).2.1 with
        | none => none
        | some cws =>
          if cws - 7 < 1 then none
          else
            some ⟨start_dt, cws, weekCode sy sw,
              weekCode (isocalendar (cws - 7)).1 (isocalendar (cws - 7)).2.1⟩

/-- Modelled from the failure enumeration in the claim for parse_week_str: after
    stripping, the token is empty, or cannot be split into integer year and week
    parts around W, or is a non-digit short form, or yields a week number
    outside [1, 53]. -/
def parse_week_fail (value : String) : Prop :=
  let v := pyStrip value.data
  v = [] ∨
  (v.contains 'W' = true ∧
    (pyInt (splitOnFirst 'W' v).1 = none ∨ pyInt (splitOnFirst 'W' v).2 = none)) ∨
  (v.contains 'W' = true ∧
    ∃ wk, pyInt (splitOnFirst 'W' v).2 = some wk ∧ ¬(1 ≤ wk ∧ wk ≤ 53)) ∨
  (v.contains 'W' = false ∧ v.all Char.isDigit = false) ∨
  (v.contains 'W' = false ∧ v.all Char.isDigit = true ∧
    ¬(1 ≤ digitsVal v ∧ digitsVal v ≤ 53))

/-- One transformed scale measurement row as fed to the weekly pivot
    (measure_client.MeasureRecord restricted to the five pivoted value columns,
    with exact rational values).  `day` is the calendar-date component of the
    timestamp as an ordinal day and `tod` its time of day in nanoseconds (pandas
    datetime64 stores integers), which the pivot never consults beyond taking
    the date. -/
structure ScaleSample where
  day : ℤ
  tod : ℤ
  weight_kg : Option ℚ
  muscle_mass_kg : Option ℚ
  hydration_kg : Option ℚ
  fat_mass_kg : Option ℚ
  bone_mass_kg : Option ℚ
deriving DecidableEq

/-- One row of per-metric means; `none` models NaN. -/
structure MetricMeans where
  weight_kg : Option ℚ
  muscle_mass_kg : Option ℚ
  hydration_kg : Option ℚ
  fat_mass_kg : Option ℚ
  bone_mass_kg : Option ℚ
deriving DecidableEq

/-- pandas mean with skipna=True over optional values: the mean of the present
    values, absent when no value is present (absent values are excluded, never
    treated as zero). -/
def meanOfPresent (xs : List (Option ℚ)) : Option ℚ :=
  let v := xs.filterMap id
  if v.length = 0 then none else some (v.sum / (v.length : ℚ))

/-- Insertion into an ascending list of integers (models the ascending group
    keys produced by pandas groupby). -/
def insertIntAsc (x : ℤ) : List ℤ → List ℤ
  | [] => [x]
  | y :: ys => if x ≤ y then x :: y :: ys else y :: insertIntAsc x ys

/-- Ascending distinct group keys of an integer column. -/
def sortedIntKeys (l : List ℤ) : List ℤ := (l.foldr insertIntAsc []).dedup

/-- Lexicographic strict comparison of character lists by code point (the string
    ordering pandas uses for sorting group keys). -/
def charListLt : List Char → List Char → Bool
  | [], [] => false
  | [], _ :: _ => true
  | _ :: _, [] => false
  | a :: as, b :: bs =>
    if a.toNat < b.toNat then true
    else if b.toNat < a.toNat then false
    else charListLt as bs

/-- Insertion into an ascending list of strings. -/
def insertStrAsc (x : String) : List String → List String
  | [] => [x]
  | y :: ys => if charListLt y.data x.data then y :: insertStrAsc x ys else x :: y :: ys

/-- Ascending distinct group keys of a string column. -/
def sortedStrKeys (l : List String) : List String := (l.foldr insertStrAsc []).dedup

/-- Stage 1 of measure_client.pivot_scale_measurements_weekly: group samples by
    the calendar-date component of the timestamp and take per-metric means over
    the non-absent values of each day. -/
def daily_averages (samples : List ScaleSample) : List (ℤ × MetricMeans) :=
  (sortedIntKeys (samples.map (fun s => s.day))).map fun d =>
    let g := samples.filter (fun s => s.day == d)
    (d, ⟨meanOfPresent (g.map (fun s => s.weight_kg)),
         meanOfPresent (g.map (fun s => s.muscle_mass_kg)),
         meanOfPresent (g.map (fun s => s.hydration_kg)),
         meanOfPresent (g.map (fun s => s.fat_mass_kg)),
         meanOfPresent (g.map (fun s => s.bone_mass_kg))⟩)

/-- The Week number label of a daily key: ISO year ++ W ++ zero-padded ISO week,
    exactly the string built from dt.isocalendar in the pivot. -/
def week_number_of_day (d : ℤ) : String :=
  weekCode (isocalendar d).1 (isocalendar d).2.1

/-- Output table of the weekly pivot: fixed column schema plus one row per week. -/
structure WeeklyFrame where
  cols : List String
  rows : List (String × MetricMeans)
deriving DecidableEq

/-- measure_client.pivot_scale_measurements_weekly: an empty frame keeps the full
    schema with zero rows; otherwise daily means are computed first and then
    grouped by ISO week code and averaged again per metric (mean of means). -/
def pivot_scale_measurements_weekly (samples : List ScaleSample) : WeeklyFrame :=
  let cols := ["Week number", "Weight (kg)", "Muscle mass (kg)", "Hydration (kg)",
               "Fat mass (kg)", "Bone mass (kg)"]
  if samples = [] then ⟨cols, []⟩
  else
    let daily := daily_averages samples
    let keys := sortedStrKeys (daily.map (fun r => week_number_of_day r.1))
    ⟨cols, keys.map fun wk =>
      let g := (daily.filter (fun r => week_number_of_day r.1 == wk)).map (fun r => r.2)
      (wk, ⟨meanOfPresent (g.map (fun m => m.weight_kg)),
            meanOfPresent (g.map (fun m => m.muscle_mass_kg)),
            meanOfPresent (g.map (fun m => m.hydration_kg)),
            meanOfPresent (g.map (fun m => m.fat_mass_kg)),
            meanOfPresent (g.map (fun m => m.bone_mass_kg))⟩)⟩

/-- Modelled from the spec comparison only: the single-stage flat mean over raw
    samples, which the spec contrasts with the implemented mean of means. -/
def flat_mean_weight (samples : List ScaleSample) : Option ℚ :=
  meanOfPresent (samples.map (fun s => s.weight_kg))

/-- The asymmetric example of the claim: 2025-01-01 (ordinal 739252) with weight
    samples 80 and 82, and 2025-01-02 with a single weight sample 70; both days
    lie in ISO week 2025W01. -/
def c1Samples : List ScaleSample :=
  [⟨739252, 8 * 3600, some 80, none, none, none, none⟩,
   ⟨739252, 12 * 3600, some 82, none, none, none, none⟩,
   ⟨739253, 8 * 3600, some 70, none, none, none, none⟩]

/-- A normalized sample row as filtered by cli.fetch_measures: a timestamp (an
    instant in integer nanoseconds, as pandas datetime64 stores it) plus a
    payload standing for the metric columns. -/
structure TsRow where
  ts : ℤ
  payload : ℤ
deriving DecidableEq

/-- cli.fetch_measures, file path: raw_df[(timestamp >= start) & (timestamp < end)]. -/
def filter_in_range (rows : List TsRow) (start_date end_date : ℤ) : List TsRow :=
  rows.filter (fun r => decide (start_date ≤ r.ts) && decide (r.ts < end_date))

/-- cli.fetch_measures, API path: the same mask, applied only when the fetched
    frame is nonempty. -/
def api_filter_in_range (rows : List TsRow) (start_date end_date : ℤ) : List TsRow :=
  if rows = [] then rows else filter_in_range rows start_date end_date

/-- One transformed measure group as handled by the pagination driver (batch id
    and timestamp; the decoded metric values play no role in pagination). -/
structure MeasureGroupRec where
  group_id : ℤ
  timestamp : ℤ
deriving DecidableEq

/-- One page response of the measure API after transformation: groups, the more
    flag, and the next offset. -/
structure MeasurePage where
  recs : List MeasureGroupRec
  more : ℤ
  offset : Option ℤ
deriving DecidableEq

/-- Insertion by timestamp, ascending. -/
def insertByTs (x : MeasureGroupRec) : List MeasureGroupRec → List MeasureGroupRec
  | [] => [x]
  | y :: ys => if y.timestamp ≤ x.timestamp then y :: insertByTs x ys else x :: y :: ys

/-- df.sort_values("timestamp"). -/
def sort_values_ts (l : List MeasureGroupRec) : List MeasureGroupRec :=
  l.foldr insertByTs []

/-- df.drop_duplicates("group_id", keep="last"): keep, in order, each entry whose
    batch id does not occur again later in the list. -/
def drop_duplicates_keep_last : List MeasureGroupRec → List MeasureGroupRec
  | [] => []
  | x :: xs =>
    if xs.any (fun y => y.group_id == x.group_id) then drop_duplicates_keep_last xs
    else x :: drop_duplicates_keep_last xs

/-- The paging loop of measure_client.fetch_scale_measurements_all.  `pages`
    enumerates the successive server responses; each iteration issues one request
    (its offset is appended to the request log), collects the transformed page,
    then stops if the page cap is reached, or if the response does not report
    more data, or carries no resume offset; otherwise it continues at the
    returned offset. -/
def fetch_pages_loop (pages : List MeasurePage) (cur : Option ℤ) (cnt : ℕ)
    (max_pages : Option ℕ) : List (Option ℤ) × List MeasureGroupRec :=
  match pages with
  | [] => ([], [])
  | p :: rest =>
    let capStop : Bool := match max_pages with
      | some m => decide (m ≤ cnt + 1)
      | none => false
    if capStop then ([cur], p.recs)
    else if p.more ≠ 1 ∨ p.offset = none then ([cur], p.recs)
    else
      let nxt := fetch_pages_loop rest p.offset (cnt + 1) max_pages
      (cur :: nxt.1, p.recs ++ nxt.2)

/-- measure_client.fetch_scale_measurements_all: run the paging loop starting
    with no offset, then sort by timestamp and de-duplicate batch ids keeping
    the final occurrence.  Returns (request log, resulting groups). -/
def fetch_scale_measurements_all (pages : List MeasurePage) (max_pages : Option ℕ) :
    List (Option ℤ) × List MeasureGroupRec :=
  let r := fetch_pages_loop pages none 0 max_pages
  (r.1, drop_duplicates_keep_last (sort_values_ts r.2))

/-- cli.EXPECTED_CSV_COLS: the canonical required columns. -/
def EXPECTED_CSV_COLS : List String :=
  ["Date", "Weight (kg)", "Fat mass (kg)", "Muscle mass (kg)", "Bone mass (kg)",
   "Hydration (kg)"]

/-- cli._CSV_HEADER_NORMALIZATION: known case variants mapped to canonical names. -/
def CSV_HEADER_NORMALIZATION : List (String × String) :=
  [("Fat Mass (kg)", "Fat mass (kg)"),
   ("Muscle Mass (kg)", "Muscle mass (kg)"),
   ("Bone Mass (kg)", "Bone mass (kg)"),
   ("Weight (Kg)", "Weight (kg)"),
   ("Hydration (Kg)", "Hydration (kg)")]

/-- Python str.strip on a String. -/
def pyStripStr (s : String) : String := ⟨pyStrip s.data⟩

/-- Python str.join with separator comma-space. -/
def joinCommaSep : List String → String
  | [] => ""
  | [x] => x
  | x :: y :: rest => x ++ ", " ++ joinCommaSep (y :: rest)

/-- Header pass of cli._read_withings_csv: strip each header, build the rename
    map from stripped names found in the normalization table, and rename every
    original column equal to a rename-map key. -/
def normalize_headers (headers : List String) : List String :=
  let cleaned := headers.map pyStripStr
  let renameMap := cleaned.filterMap
    (fun c => (CSV_HEADER_NORMALIZATION.lookup c).map (fun t => (c, t)))
  headers.map (fun h => match renameMap.lookup h with | some t => t | none => h)

/-- The required columns still absent after normalization (in canonical order,
    as the list comprehension over EXPECTED_CSV_COLS builds it). -/
def missing_columns (headers : List String) : List String :=
  EXPECTED_CSV_COLS.filter (fun c => ! (normalize_headers headers).contains c)

/-- cli._read_withings_csv: normalize headers, then validate required columns
    (failure names every absent column), then convert the Date column with the
    given parser (modelling pd.to_datetime with errors=coerce, where a failed
    conversion yields NaT i.e. none), failing with a fixed message when any date
    is unparseable. -/
def read_withings_csv (headers : List String) (dates : List String)
    (parse_date : String → Option ℤ) : Except String (List String × List ℤ) :=
  if missing_columns headers ≠ [] then
    Except.error ("Missing required columns: " ++ joinCommaSep (missing_columns headers))
  else if (dates.map parse_date).contains none then
    Except.error "Some Date values could not be parsed."
  else Except.ok (normalize_headers headers, (dates.map parse_date).filterMap id)

/-- Does the first character list occur contiguously inside the second, starting
    at its head. -/
def startsWithSeq : List Char → List Char → Bool
  | [], _ => true
  | _ :: _, [] => false
  | a :: as, b :: bs => a == b && startsWithSeq as bs

/-- Does the first character list occur contiguously anywhere inside the second. -/
def containsSeq (needle : List Char) : List Char → Bool
  | [] => startsWithSeq needle []
  | c :: rest => startsWithSeq needle (c :: rest) || containsSeq needle rest

/-- A concrete date parser standing for pandas to_datetime in the counterexample:
    it parses the first value and fails on the second. -/
def demoDateParse (s : String) : Option ℤ :=
  if s = "2025-01-01" then some 739252 else none

deriving instance DecidableEq for Except

theorem daysBeforeYear_succ (y : ℤ) :
    daysBeforeYear (y + 1) = daysBeforeYear y + (if isLeap y then 366 else 365) := by
  simp only [daysBeforeYear, isLeap]
  split_ifs with h <;> omega

theorem daysBeforeYear_mono {a b : ℤ} (h : a ≤ b) : daysBeforeYear a ≤ daysBeforeYear b := by
  simp only [daysBeforeYear]; omega

theorem isoweek1monday_isMonday (y : ℤ) : (isoweek1monday y + 6) % 7 = 0 := by
  simp only [isoweek1monday]
  split_ifs <;> omega

theorem isoweek1monday_near_jan1 (y : ℤ) :
    jan1Ord y - 3 ≤ isoweek1monday y ∧ isoweek1monday y ≤ jan1Ord y + 3 := by
  simp only [isoweek1monday]
  split_ifs <;> omega

theorem isoweek1monday_succ (y : ℤ) :
    isoweek1monday (y + 1) = isoweek1monday y + (if isoLongYear y then 371 else 364) := by
  have h1 := daysBeforeYear_succ y
  by_cases hl : isLeap y <;>
    simp only [isoweek1monday, isoLongYear, jan1Ord, hl, if_true, if_false,
      and_true, and_false, or_false] at * <;>
    split_ifs at * <;> omega

theorem isoweek1monday_strictMono {a b : ℤ} (h : a < b) :
    isoweek1monday a < isoweek1monday b := by
  have h1 := isoweek1monday_near_jan1 a
  have h2 := isoweek1monday_near_jan1 b
  have h3 := daysBeforeYear_succ a
  have h4 : daysBeforeYear (a + 1) ≤ daysBeforeYear b := daysBeforeYear_mono (by omega)
  simp only [jan1Ord] at h1 h2
  split_ifs at h3 <;> omega

theorem daysBeforeYear_decomp (a b c e : ℤ) (hb : 0 ≤ b) (hb2 : b ≤ 3) (hc : 0 ≤ c)
    (hc2 : c ≤ 24) (he : 0 ≤ e) (he2 : e ≤ 3) :
    daysBeforeYear (400 * a + 100 * b + 4 * c + e + 1) =
      146097 * a + 36524 * b + 1461 * c + 365 * e := by
  simp only [daysBeforeYear]; omega

theorem yearOfOrd_spec_aux (n a b c e r3 Y : ℤ)
    (h1 : n = 146097 * a + 36524 * b + 1461 * c + 365 * e + r3)
    (hb : 0 ≤ b) (hb4 : b ≤ 4) (hc : 0 ≤ c) (hc24 : c ≤ 24) (he : 0 ≤ e) (he4 : e ≤ 4)
    (hr3 : 0 ≤ r3) (hr365 : r3 < 365)
    (hbe : b = 4 → c = 0 ∧ e = 0 ∧ r3 = 0)
    (hec : e = 4 → c ≤ 23 ∧ r3 = 0)
    (hY : Y = if e = 4 ∨ b = 4 then 400 * a + 100 * b + 4 * c + e
              else 400 * a + 100 * b + 4 * c + e + 1) :
    daysBeforeYear Y < n + 1 ∧ n + 1 ≤ daysBeforeYear (Y + 1) := by
  by_cases hsp : e = 4 ∨ b = 4
  · rw [if_pos hsp] at hY
    have hb3 : b ≤ 3 ∨ b = 4 := by omega
    have hkey : daysBeforeYear (400 * a + 100 * b + 4 * c + e) =
        146097 * a + 36524 * b + 1461 * c + 365 * e - 365 ∧
        isLeap (400 * a + 100 * b + 4 * c + e) ∧ r3 = 0 := by
      rcases hsp with h4 | h4
      · obtain ⟨hc23, hr0⟩ := hec h4
        have hbb : b ≤ 3 := by
          rcases hb3 with h | h
          · exact h
          · exact absurd (hbe h).2.1 (by omega)
        have hd := daysBeforeYear_decomp a b c 3 hb hbb hc hc24 (by norm_num) (le_refl 3)
        have harg : 400 * a + 100 * b + 4 * c + 3 + 1 = 400 * a + 100 * b + 4 * c + e := by
          omega
        rw [harg] at hd
        refine ⟨by omega, ?_, hr0⟩
        simp only [isLeap]
        left
        constructor <;> omega
      · obtain ⟨hc0, he0, hr0⟩ := hbe h4
        have hd := daysBeforeYear_decomp a 3 24 3 (by norm_num) (le_refl 3) (by norm_num)
          (le_refl 24) (by norm_num) (le_refl 3)
        have harg : 400 * a + 100 * 3 + 4 * 24 + 3 + 1 = 400 * a + 100 * b + 4 * c + e := by
          omega
        rw [harg] at hd
        refine ⟨by omega, ?_, hr0⟩
        simp only [isLeap]
        right
        omega
    obtain ⟨hd, hleap, hr0⟩ := hkey
    have hsucc := daysBeforeYear_succ (400 * a + 100 * b + 4 * c + e)
    rw [if_pos hleap] at hsucc
    subst hY
    omega
  · rw [if_neg hsp] at hY
    push_neg at hsp
    have hd := daysBeforeYear_decomp a b c e hb (by omega) hc hc24 he (by omega)
    have hsucc := daysBeforeYear_succ (400 * a + 100 * b + 4 * c + e + 1)
    subst hY
    split_ifs at hsucc <;> omega

theorem yearOfOrd_spec (ord : ℤ) :
    daysBeforeYear (yearOfOrd ord) < ord ∧ ord ≤ daysBeforeYear (yearOfOrd ord + 1) := by
  have happ := yearOfOrd_spec_aux (ord - 1) ((ord - 1) / 146097)
      ((ord - 1) % 146097 / 36524) ((ord - 1) % 146097 % 36524 / 1461)
      ((ord - 1) % 146097 % 36524 % 1461 / 365) ((ord - 1) % 146097 % 36524 % 1461 % 365)
      (yearOfOrd ord)
      (by omega) (by omega) (by omega) (by omega) (by omega) (by omega) (by omega)
      (by omega) (by omega) (by omega) (by omega)
      (by simp only [yearOfOrd]; split_ifs <;> omega)
  have e1 : ord - 1 + 1 = ord := by omega
  rw [e1] at happ
  exact happ

theorem yearOfOrd_range (ord : ℤ) (h1 : 1 ≤ ord) (h2 : ord ≤ maxOrd) :
    1 ≤ yearOfOrd ord ∧ yearOfOrd ord ≤ 9999 := by
  obtain ⟨hl, hr⟩ := yearOfOrd_spec ord
  constructor
  · by_contra hneg
    have : daysBeforeYear (yearOfOrd ord + 1) ≤ daysBeforeYear 1 := daysBeforeYear_mono (by omega)
    have : daysBeforeYear 1 = 0 := by decide
    omega
  · by_contra hneg
    have : daysBeforeYear 10000 ≤ daysBeforeYear (yearOfOrd ord) := daysBeforeYear_mono (by omega)
    have : daysBeforeYear 10000 = 3652059 := by decide
    simp only [maxOrd] at h2
    omega

theorem isocalCore_correct (ord Y : ℤ) (h1 : 1 ≤ ord) (h2 : ord ≤ 3652059)
    (hY1 : 1 ≤ Y) (hY2 : Y ≤ 9999)
    (hsl : daysBeforeYear Y < ord) (hsr : ord ≤ daysBeforeYear (Y + 1)) :
    isoWeekValid (isocalCore ord Y).1 (isocalCore ord Y).2.1 ∧
    ord = isoweek1monday (isocalCore ord Y).1 + 7 * ((isocalCore ord Y).2.1 - 1) +
      ((isocalCore ord Y).2.2 - 1) ∧
    1 ≤ (isocalCore ord Y).2.2 ∧ (isocalCore ord Y).2.2 ≤ 7 := by
  have hb0 := isoweek1monday_near_jan1 Y
  have hbm := isoweek1monday_near_jan1 (Y - 1)
  have hbp := isoweek1monday_near_jan1 (Y + 1)
  have hdm := daysBeforeYear_succ (Y - 1)
  have hd0 := daysBeforeYear_succ Y
  have hsm := isoweek1monday_succ (Y - 1)
  have hs0 := isoweek1monday_succ Y
  simp only [jan1Ord] at hb0 hbm hbp
  have hym : Y - 1 + 1 = Y := by omega
  rw [hym] at hdm hsm
  simp only [isocalCore]
  split_ifs with hneg hbig
  · -- ord lies before week 1 of year Y: the date belongs to the previous ISO year
    dsimp only
    have hYge2 : 2 ≤ Y := by
      by_contra hcon
      have hYeq : Y = 1 := by omega
      subst hYeq
      have hW1 : isoweek1monday 1 = 1 := by decide
      omega
    have hm : isoweek1monday (Y - 1) ≤ ord := by
      split_ifs at hdm <;> omega
    refine ⟨⟨by omega, by omega, by omega, ?_⟩, by omega, by omega, by omega⟩
    by_cases hlong : isoLongYear (Y - 1)
    · rw [if_pos hlong] at hsm
      rcases lt_or_le ((ord - isoweek1monday (Y - 1)) / 7) 52 with hw | hw
      · left; omega
      · right; exact ⟨by omega, hlong⟩
    · rw [if_neg hlong] at hsm
      left; omega
  · -- 52 ≤ week and the Monday of week 1 of year Y+1 is not after ord
    dsimp only
    obtain ⟨hw52, hple⟩ := hbig
    have hY9 : Y ≤ 9998 := by
      by_contra hcon
      have hYeq : Y = 9999 := by omega
      subst hYeq
      have hWm : isoweek1monday (9999 + 1) = 3652062 := by decide
      omega
    refine ⟨⟨by omega, by omega, by norm_num, Or.inl (by norm_num)⟩, ?_, by omega, by omega⟩
    split_ifs at hs0 <;> omega
  · -- stay within year Y
    dsimp only
    have hpos : 0 ≤ (ord - isoweek1monday Y) / 7 := by omega
    refine ⟨⟨by omega, by omega, by omega, ?_⟩, by omega, by omega, by omega⟩
    rcases lt_or_le ((ord - isoweek1monday Y) / 7) 52 with hw | hw
    · left; omega
    · have hlt : ord < isoweek1monday (Y + 1) := by
        rw [not_and] at hbig
        have := hbig hw
        omega
      by_cases hlong : isoLongYear Y
      · rw [if_pos hlong] at hs0
        right; exact ⟨by omega, hlong⟩
      · rw [if_neg hlong] at hs0
        omega

theorem isocalendar_correct (ord : ℤ) (h1 : 1 ≤ ord) (h2 : ord ≤ maxOrd) :
    isoWeekValid (isocalendar ord).1 (isocalendar ord).2.1 ∧
    ord = isoweek1monday (isocalendar ord).1 + 7 * ((isocalendar ord).2.1 - 1) +
      ((isocalendar ord).2.2 - 1) ∧
    1 ≤ (isocalendar ord).2.2 ∧ (isocalendar ord).2.2 ≤ 7 := by
  obtain ⟨hy1, hy2⟩ := yearOfOrd_range ord h1 h2
  obtain ⟨hsl, hsr⟩ := yearOfOrd_spec ord
  simp only [maxOrd] at h2
  exact isocalCore_correct ord (yearOfOrd ord) h1 h2 hy1 hy2 hsl hsr

theorem week_start_monday (y w d : ℤ) (h : week_start y w = some d) : (d + 6) % 7 = 0 := by
  simp only [week_start] at h
  split_ifs at h with hv
  rw [Option.some_inj] at h
  have hm := isoweek1monday_isMonday y
  omega

theorem week_start_valid (y w d : ℤ) (h : week_start y w = some d) : isoWeekValid y w := by
  simp only [week_start] at h
  split_ifs at h with hv
  exact hv

theorem week_following_start_monday (y w d : ℤ) (h : week_following_start y w = some d) :
    (d + 6) % 7 = 0 := by
  unfold week_following_start at h
  cases heq : week_start y (w + 1) with
  | some x =>
    rw [heq] at h
    dsimp only at h
    rw [Option.some_inj] at h
    exact week_start_monday y (w + 1) d (by rw [heq, h])
  | none =>
    rw [heq] at h
    dsimp only at h
    exact week_start_monday (y + 1) 1 d h

theorem week_following_start_of_monday (py pw m : ℤ) (hv : isoWeekValid py pw)
    (hm : m = isoweek1monday py + 7 * (pw - 1)) (hb : m + 7 ≤ 3652059) :
    week_following_start py pw = some (m + 7) := by
  obtain ⟨ha, hb', hc, hd⟩ := hv
  unfold week_following_start
  by_cases hv2 : isoWeekValid py (pw + 1)
  · simp only [week_start, if_pos hv2]
    rw [show isoweek1monday py + 7 * (pw + 1 - 1) = m + 7 from by omega]
  · simp only [week_start, if_neg hv2]
    have hs := isoweek1monday_succ py
    have hΔ : isoweek1monday (py + 1) = m + 7 := by
      by_cases hlong : isoLongYear py
      · rw [if_pos hlong] at hs
        have hpw : pw = 53 := by
          by_contra hne
          have h52 : pw ≤ 52 := by
            rcases hd with h | ⟨h, _⟩
            · exact h
            · omega
          apply hv2
          rcases lt_or_le (pw + 1) 53 with hlt | hge
          · exact ⟨ha, hb', by omega, Or.inl (by omega)⟩
          · exact ⟨ha, hb', by omega, Or.inr ⟨by omega, hlong⟩⟩
        omega
      · rw [if_neg hlong] at hs
        have hpw : pw = 52 := by
          rcases hd with h52 | ⟨h53, hl⟩
          · by_contra hne
            exact hv2 ⟨ha, hb', by omega, Or.inl (by omega)⟩
          · exact absurd hl hlong
        omega
    have hle : py + 1 ≤ 9999 := by
      by_contra hcon
      have hpy : py = 9999 := by omega
      subst hpy
      have hWm : isoweek1monday (9999 + 1) = 3652062 := by decide
      omega
    have hvp : isoWeekValid (py + 1) 1 := ⟨by omega, hle, by norm_num, Or.inl (by norm_num)⟩
    simp only [week_start, if_pos hvp]
    rw [Option.some_inj]
    omega

theorem week_start_isocalendar (d : ℤ) (h1 : 1 ≤ d) (h2 : d ≤ maxOrd) :
    week_start (isocalendar d).1 (isocalendar d).2.1 = some (d - (d + 6) % 7) := by
  obtain ⟨hv, hdec, hd1, hd7⟩ := isocalendar_correct d h1 h2
  have hmon := isoweek1monday_isMonday (isocalendar d).1
  simp only [week_start, if_pos hv]
  rw [Option.some_inj]
  omega

/-- C2: every WeekRange returned by resolve_week_range (end token given or absent)
    has `end - start` equal to a whole number of 7-day periods, and its end_code
    names an ISO week whose week_following_start is exactly the end boundary. -/
theorem resolve_week_range_end_invariant (s : String) (e : Option String) (nowOrd : ℤ)
    (r : WeekRange) (h1 : 1 ≤ nowOrd) (h2 : nowOrd ≤ maxOrd)
    (h : resolve_week_range s e nowOrd = some r) :
    (r.ending - r.start) % 7 = 0 ∧
    ∃ ey ew, r.end_week_code = weekCode ey ew ∧
      week_following_start ey ew = some r.ending := by
  have hmax : maxOrd = 3652059 := rfl
  unfold resolve_week_range at h
  cases hp : parse_week_str s (isocalendar nowOrd).1 with
  | none => rw [hp] at h; exact absurd h (by simp)
  | some sp =>
    obtain ⟨sy, sw⟩ := sp
    rw [hp] at h
    dsimp only at h
    cases hs : week_start sy sw with
    | none => rw [hs] at h; exact absurd h (by simp)
    | some start_dt =>
      rw [hs] at h
      dsimp only at h
      cases e with
      | some ew =>
        dsimp only at h
        cases hpe : parse_week_str ew (isocalendar nowOrd).1 with
        | none => rw [hpe] at h; exact absurd h (by simp)
        | some ep =>
          obtain ⟨ey, ewn⟩ := ep
          rw [hpe] at h
          dsimp only at h
          cases hf : week_following_start ey ewn with
          | none => rw [hf] at h; exact absurd h (by simp)
          | some endB =>
            rw [hf] at h
            dsimp only at h
            rw [Option.some_inj] at h
            subst h
            have hm1 := week_start_monday _ _ _ hs
            have hm2 := week_following_start_monday _ _ _ hf
            dsimp only
            exact ⟨by omega, ey, ewn, rfl, hf⟩
      | none =>
        dsimp only at h
        cases hcw : week_start (isocalendar nowOrd).1 (isocalendar nowOrd).2.1 with
        | none => rw [hcw] at h; exact absurd h (by simp)
        | some cws =>
          rw [hcw] at h
          dsimp only at h
          split_ifs at h with hov
          rw [Option.some_inj] at h
          subst h
          have hwsm := week_start_isocalendar nowOrd h1 h2
          rw [hcw, Option.some_inj] at hwsm
          have hcwm := week_start_monday _ _ _ hcw
          have hcn : cws ≤ nowOrd := by omega
          obtain ⟨hv', hdec', hdw1, hdw7⟩ :=
            isocalendar_correct (cws - 7) (by omega) (by omega)
          have hmon := isoweek1monday_isMonday (isocalendar (cws - 7)).1
          have hdw : (isocalendar (cws - 7)).2.2 = 1 := by omega
          have hprev : cws - 7 = isoweek1monday (isocalendar (cws - 7)).1 +
              7 * ((isocalendar (cws - 7)).2.1 - 1) := by omega
          have hwfs := week_following_start_of_monday (isocalendar (cws - 7)).1
            (isocalendar (cws - 7)).2.1 (cws - 7) hv' hprev (by omega)
          rw [show cws - 7 + 7 = cws from by omega] at hwfs
          have hm1 := week_start_monday _ _ _ hs
          dsimp only
          exact ⟨by omega, (isocalendar (cws - 7)).1, (isocalendar (cws - 7)).2.1,
            rfl, hwfs⟩

/-- Witness for C2 at the spec example: resolve_week_range("2025W40", "2025W42")
    with now = 2025-10-26 (ordinal 739550) yields start = Monday of 2025W40
    (ordinal 739523), end = Monday of 2025W43 (ordinal 739544), end_code 2025W42,
    and the invariant holds there. -/
theorem resolve_week_range_end_invariant_witness :
    ((1 : ℤ) ≤ 739550 ∧ (739550 : ℤ) ≤ maxOrd ∧
      resolve_week_range "2025W40" (some "2025W42") 739550 =
        some ⟨739523, 739544, "2025W40", "2025W42"⟩) ∧
    week_start 2025 40 = some 739523 ∧ week_start 2025 43 = some 739544 ∧
    (((739544 : ℤ) - 739523) % 7 = 0 ∧ ∃ ey ew, "2025W42" = weekCode ey ew ∧
      week_following_start ey ew = some 739544) := by
  refine ⟨⟨by norm_num, by decide, by decide⟩, by decide, by decide, ?_⟩
  exact resolve_week_range_end_invariant "2025W40" (some "2025W42") 739550
    ⟨739523, 739544, "2025W40", "2025W42"⟩ (by norm_num) (by decide) (by decide)

/-- C3: with the end token absent, the end boundary is the Monday 00:00 of the ISO
    week containing reference_now (a Monday at most 6 days before now, exclusive
    boundary), and end_code is the canonical code of the week before that week
    (the ISO week whose Monday is exactly 7 days before the end boundary). -/
theorem resolve_week_range_default_end (s : String) (nowOrd : ℤ) (r : WeekRange)
    (h1 : 1 ≤ nowOrd) (h2 : nowOrd ≤ maxOrd)
    (h : resolve_week_range s none nowOrd = some r) :
    ((r.ending + 6) % 7 = 0 ∧ r.ending ≤ nowOrd ∧ nowOrd < r.ending + 7) ∧
    ∃ py pw, isoWeekValid py pw ∧ week_start py pw = some (r.ending - 7) ∧
      r.end_week_code = weekCode py pw := by
  have hmax : maxOrd = 3652059 := rfl
  unfold resolve_week_range at h
  cases hp : parse_week_str s (isocalendar nowOrd).1 with
  | none => rw [hp] at h; exact absurd h (by simp)
  | some sp =>
    obtain ⟨sy, sw⟩ := sp
    rw [hp] at h
    dsimp only at h
    cases hs : week_start sy sw with
    | none => rw [hs] at h; exact absurd h (by simp)
    | some start_dt =>
      rw [hs] at h
      dsimp only at h
      cases hcw : week_start (isocalendar nowOrd).1 (isocalendar nowOrd).2.1 with
      | none => rw [hcw] at h; exact absurd h (by simp)
      | some cws =>
        rw [hcw] at h
        dsimp only at h
        split_ifs at h with hov
        rw [Option.some_inj] at h
        subst h
        have hwsm := week_start_isocalendar nowOrd h1 h2
        rw [hcw, Option.some_inj] at hwsm
        have hcwm := week_start_monday _ _ _ hcw
        obtain ⟨hv', hdec', hdw1, hdw7⟩ :=
          isocalendar_correct (cws - 7) (by omega) (by omega)
        have hmon := isoweek1monday_isMonday (isocalendar (cws - 7)).1
        have hdw : (isocalendar (cws - 7)).2.2 = 1 := by omega
        dsimp only
        refine ⟨⟨by omega, by omega, by omega⟩,
          (isocalendar (cws - 7)).1, (isocalendar (cws - 7)).2.1, hv', ?_, rfl⟩
        simp only [week_start, if_pos hv']
        rw [Option.some_inj]
        omega

/-- Witness for C3 at the spec example: now = 2025-10-26 (ordinal 739550, a Sunday
    of ISO week 2025W43); the end boundary is Monday of 2025W43 (ordinal 739544)
    and end_code is 2025W42. -/
theorem resolve_week_range_default_end_witness :
    ((1 : ℤ) ≤ 739550 ∧ (739550 : ℤ) ≤ maxOrd ∧
      resolve_week_range "2025W40" none 739550 =
        some ⟨739523, 739544, "2025W40", "2025W42"⟩) ∧
    ((((739544 : ℤ) + 6) % 7 = 0 ∧ (739544 : ℤ) ≤ 739550 ∧ (739550 : ℤ) < 739544 + 7) ∧
      ∃ py pw, isoWeekValid py pw ∧ week_start py pw = some ((739544 : ℤ) - 7) ∧
        "2025W42" = weekCode py pw) := by
  refine ⟨⟨by norm_num, by decide, by decide⟩, ?_⟩
  exact resolve_week_range_default_end "2025W40" 739550
    ⟨739523, 739544, "2025W40", "2025W42"⟩ (by norm_num) (by decide) (by decide)

/-- C4 counterexample: (9999, 52) exists under the ISO calendar (week_start
    succeeds on it), yet week_following_start raises instead of returning a
    Monday 7 days later, because the fallback (year 10000, week 1) is outside
    the range datetime can represent. -/
theorem week_following_start_fails_on_9999W52 :
    isoWeekValid 9999 52 ∧ week_start 9999 52 = some 3652055 ∧
    week_following_start 9999 52 = none := by decide

/-- C4 amended: for every (year, week) pair that exists under the ISO calendar
    within the representable year range, except week 52 of year 9999 (where the
    following Monday is out of range and week_following_start fails),
    week_following_start succeeds, lies exactly 7 days after week_start, and is
    a Monday; the week-53 roll-over works by catching the invalid-week error and
    retrying with (year+1, week 1). -/
theorem week_following_start_week_after (y w : ℤ) (hv : isoWeekValid y w)
    (hne : ¬(y = 9999 ∧ w = 52)) :
    ∃ s f, week_start y w = some s ∧ week_following_start y w = some f ∧
      f - s = 7 ∧ (f + 6) % 7 = 0 := by
  obtain ⟨ha, hb, hc, hd⟩ := hv
  have hmon := isoweek1monday_isMonday y
  have hmon1 := isoweek1monday_isMonday (y + 1)
  have hs0 := isoweek1monday_succ y
  refine ⟨isoweek1monday y + 7 * (w - 1), ?_⟩
  unfold week_following_start
  by_cases hv2 : isoWeekValid y (w + 1)
  · refine ⟨isoweek1monday y + 7 * w, ?_, ?_, by ring_nf, by omega⟩
    · simp only [week_start, if_pos (show isoWeekValid y w from ⟨ha, hb, hc, hd⟩)]
    · simp only [week_start, if_pos hv2]
      rw [Option.some_inj]
      ring_nf
  · have hy9 : y ≤ 9998 := by
      rcases lt_or_le y 9999 with hlt | hge
      · omega
      · have hy : y = 9999 := by omega
        subst hy
        have hnl : ¬ isoLongYear 9999 := by decide
        have h52 : w ≤ 52 := by
          rcases hd with h | ⟨h, hl⟩
          · exact h
          · exact absurd hl hnl
        have hw52 : w = 52 := by
          by_contra hww
          exact hv2 ⟨ha, hb, by omega, Or.inl (by omega)⟩
        exact absurd ⟨rfl, hw52⟩ hne
    have hw5253 : w = 52 ∧ ¬ isoLongYear y ∨ w = 53 ∧ isoLongYear y := by
      rcases hd with h52 | ⟨h53, hl⟩
      · left
        refine ⟨?_, ?_⟩
        · by_contra hww
          exact hv2 ⟨ha, hb, by omega, Or.inl (by omega)⟩
        · intro hl
          have hwx : w = 52 := by
            by_contra hww
            exact hv2 ⟨ha, hb, by omega, Or.inl (by omega)⟩
          exact hv2 ⟨ha, hb, by omega, Or.inr ⟨by omega, hl⟩⟩
      · right
        exact ⟨h53, hl⟩
    have hvp : isoWeekValid (y + 1) 1 := ⟨by omega, by omega, by norm_num, Or.inl (by norm_num)⟩
    simp only [week_start, if_neg hv2, if_pos hvp,
      if_pos (show isoWeekValid y w from ⟨ha, hb, hc, hd⟩)]
    refine ⟨isoweek1monday (y + 1), by trivial, by norm_num, ?_, by omega⟩
    rcases hw5253 with ⟨hw, hl⟩ | ⟨hw, hl⟩
    · rw [if_neg hl] at hs0
      omega
    · rw [if_pos hl] at hs0
      omega

/-- Witness for C4 at the roll-over example: 2020W53 is a valid ISO week,
    week_following_start(2020, 53) is exactly 7 days after week_start(2020, 53),
    lands on a Monday, and that Monday is ISO week 1 of 2021. -/
theorem week_following_start_week_after_witness :
    (isoWeekValid 2020 53 ∧ ¬(2020 = 9999 ∧ 53 = 52) ∧
      isocalendar 737794 = (2021, 1, 1) ∧ week_following_start 2020 53 = some 737794) ∧
    ∃ s f, week_start 2020 53 = some s ∧ week_following_start 2020 53 = some f ∧
      f - s = 7 ∧ (f + 6) % 7 = 0 := by
  refine ⟨⟨by decide, by decide, by decide, by decide⟩, ?_⟩
  exact week_following_start_week_after 2020 53 (by decide) (by decide)

/-- C10: resolve_week_range accepts an end token naming week 53 of a year with
    only 52 ISO weeks: 2025 has no week 53 (week_start rejects it), yet
    resolve_week_range("2025W40", "2025W53") succeeds, its end boundary is
    Monday of 2026W01 via the invalid-week fallback of week_following_start,
    the resulting bounds coincide with those for end token 2025W52, and
    end_code names the nonexistent week. -/
theorem resolve_week_range_accepts_missing_week53 :
    (¬ isoWeekValid 2025 53) ∧ week_start 2025 53 = none ∧
    resolve_week_range "2025W40" (some "2025W53") 739550 =
      some ⟨739523, 739614, "2025W40", "2025W53"⟩ ∧
    week_start 2026 1 = some 739614 ∧
    (resolve_week_range "2025W40" (some "2025W53") 739550).map
        (fun r => (r.start, r.ending)) =
      (resolve_week_range "2025W40" (some "2025W52") 739550).map
        (fun r => (r.start, r.ending)) := by decide

theorem parse_week_str_none_iff (value : String) (nowIsoYear : ℤ) :
    parse_week_str value nowIsoYear = none ↔ parse_week_fail value := by
  simp only [parse_week_str, parse_week_fail]
  by_cases hempty : pyStrip value.data = []
  · simp [hempty]
  · simp only [if_neg hempty, hempty, false_or]
    by_cases hw : (pyStrip value.data).contains 'W'
    · simp only [hw, if_true]
      cases h1 : pyInt (splitOnFirst 'W' (pyStrip value.data)).1 with
      | none => simp [h1]
      | some yr =>
        cases h2 : pyInt (splitOnFirst 'W' (pyStrip value.data)).2 with
        | none => simp [h1, h2]
        | some wk =>
          simp only [h1, h2]
          by_cases hr : 1 ≤ wk ∧ wk ≤ 53
          · simp [hr]
          · simp only [if_neg hr]
            simp [hr]
            omega
    · have hwf : (pyStrip value.data).contains 'W' = false := by
        simpa using hw
      simp only [hwf, Bool.false_eq_true, if_false, false_and, or_false, false_or, true_and]
      by_cases hd : (pyStrip value.data).all Char.isDigit
      · by_cases hr : 1 ≤ digitsVal (pyStrip value.data) ∧
            digitsVal (pyStrip value.data) ≤ 53
        · simp [hd, hr]
        · simp [hd, hr]
      · simp [hd, show (pyStrip value.data).all Char.isDigit = false from by simpa using hd]

/-- C6: parse_week_str accepts the canonical YYYYWww form and a bare digit-only
    week number resolved against the ISO year of reference_now; it fails exactly
    when the stripped token is empty, cannot be split into integer year and week
    parts around W, is a non-digit short form, or yields a week number outside
    [1, 53]; weeks 1..53 are accepted even when the year has no week 53; the
    tokens 2025X43, the empty string, AB and 2025W99 all fail. -/
theorem parse_week_str_domain :
    (∀ (value : String) (nowIsoYear : ℤ),
      parse_week_str value nowIsoYear = none ↔ parse_week_fail value) ∧
    parse_week_str "2025W43" 2000 = some (2025, 43) ∧
    parse_week_str "05" 2025 = some (2025, 5) ∧
    (parse_week_str "2025W53" 2000 = some (2025, 53) ∧ ¬ isoWeekValid 2025 53) ∧
    parse_week_str "2025X43" 2025 = none ∧
    parse_week_str "" 2025 = none ∧
    parse_week_str "AB" 2025 = none ∧
    parse_week_str "2025W99" 2025 = none :=
  ⟨parse_week_str_none_iff, by decide, by decide, ⟨by decide, by decide⟩, by decide,
    by decide, by decide, by decide⟩

/-- Witness for C6: the failure characterization instantiated at the invalid
    token 2025X43. -/
theorem parse_week_str_domain_witness :
    parse_week_str "2025X43" 2025 = none ↔ parse_week_fail "2025X43" :=
  parse_week_str_domain.1 "2025X43" 2025

theorem daily_averages_c1 :
    daily_averages c1Samples = [(739252, ⟨some 81, none, none, none, none⟩),
                                (739253, ⟨some 70, none, none, none, none⟩)] := by
  simp only [daily_averages]
  rw [show sortedIntKeys (c1Samples.map (fun s => s.day)) = [739252, 739253] from by decide]
  simp only [List.map_cons, List.map_nil]
  rw [show c1Samples.filter (fun s => s.day == 739252) =
        [⟨739252, 8 * 3600, some 80, none, none, none, none⟩,
         ⟨739252, 12 * 3600, some 82, none, none, none, none⟩] from by decide,
      show c1Samples.filter (fun s => s.day == 739253) =
        [⟨739253, 8 * 3600, some 70, none, none, none, none⟩] from by decide]
  simp only [List.map_cons, List.map_nil]
  rw [show meanOfPresent [some (80 : ℚ), some 82] = some 81 from by
        simp [meanOfPresent]; norm_num,
      show meanOfPresent ([none, none] : List (Option ℚ)) = none from by simp [meanOfPresent],
      show meanOfPresent [some (70 : ℚ)] = some 70 from by simp [meanOfPresent],
      show meanOfPresent ([none] : List (Option ℚ)) = none from by simp [meanOfPresent]]

theorem pivot_c1 :
    pivot_scale_measurements_weekly c1Samples =
      ⟨["Week number", "Weight (kg)", "Muscle mass (kg)", "Hydration (kg)",
        "Fat mass (kg)", "Bone mass (kg)"],
       [("2025W01", ⟨some (151 / 2), none, none, none, none⟩)]⟩ := by
  have hne : ¬ c1Samples = [] := by decide
  simp only [pivot_scale_measurements_weekly, if_neg hne]
  rw [daily_averages_c1]
  simp only [List.map_cons, List.map_nil]
  rw [show week_number_of_day 739252 = "2025W01" from by decide,
      show week_number_of_day 739253 = "2025W01" from by decide]
  rw [show sortedStrKeys ["2025W01", "2025W01"] = ["2025W01"] from by decide]
  simp only [List.map_cons, List.map_nil]
  rw [show ([((739252 : ℤ), (⟨some 81, none, none, none, none⟩ : MetricMeans)),
             (739253, ⟨some 70, none, none, none, none⟩)].filter
        (fun r => week_number_of_day r.1 == "2025W01")) =
        [(739252, ⟨some 81, none, none, none, none⟩),
         (739253, ⟨some 70, none, none, none, none⟩)] from by decide]
  simp only [List.map_cons, List.map_nil]
  rw [show meanOfPresent [some (81 : ℚ), some 70] = some (151 / 2) from by
        simp [meanOfPresent]; norm_num,
      show meanOfPresent ([none, none] : List (Option ℚ)) = none from by simp [meanOfPresent]]

theorem flat_mean_c1 : flat_mean_weight c1Samples = some (232 / 3) := by
  simp only [flat_mean_weight]
  rw [show c1Samples.map (fun s => s.weight_kg) = [some 80, some 82, some 70] from by decide]
  simp [meanOfPresent]
  norm_num

/-- C1 counterexample: on the asymmetric example the weekly pivot does give 75.5,
    but the flat mean over the three raw samples is 232/3 = 77.33…, not 77.0 as
    the claim states. -/
theorem pivot_weekly_flat_mean_is_not_77 :
    flat_mean_weight c1Samples = some (232 / 3) ∧ ¬ (232 / 3 : ℚ) = 77 ∧
    (pivot_scale_measurements_weekly c1Samples).rows.map
        (fun r => (r.1, r.2.weight_kg)) = [("2025W01", some (151 / 2))] := by
  refine ⟨flat_mean_c1, by norm_num, ?_⟩
  rw [pivot_c1]
  simp only [List.map_cons, List.map_nil]

/-- C1 amended: the weekly aggregation is a mean of means — per-day means over
    non-absent values first (a day mixing an absent and a present value averages
    only the present one), then the mean of the daily means per ISO week: on the
    asymmetric example the weekly weight is (81 + 70)/2 = 75.5, which differs
    from the flat mean 232/3 (about 77.33, not 77.0) over the three raw samples. -/
theorem pivot_weekly_mean_of_means :
    daily_averages c1Samples = [(739252, ⟨some 81, none, none, none, none⟩),
                                (739253, ⟨some 70, none, none, none, none⟩)] ∧
    (pivot_scale_measurements_weekly c1Samples).rows =
      [("2025W01", ⟨some (151 / 2), none, none, none, none⟩)] ∧
    flat_mean_weight c1Samples = some (232 / 3) ∧ ¬ (151 / 2 : ℚ) = 232 / 3 ∧
    daily_averages [⟨739252, 0, none, none, none, none, none⟩,
                    ⟨739252, 1, some 80, none, none, none, none⟩] =
      [(739252, ⟨some 80, none, none, none, none⟩)] := by
  refine ⟨daily_averages_c1, by rw [pivot_c1], flat_mean_c1, by norm_num, ?_⟩
  simp only [daily_averages]
  rw [show sortedIntKeys (([⟨739252, 0, none, none, none, none, none⟩,
        ⟨739252, 1, some 80, none, none, none, none⟩] : List ScaleSample).map
        (fun s => s.day)) = [739252] from by decide]
  simp only [List.map_cons, List.map_nil]
  rw [show ([⟨739252, 0, none, none, none, none, none⟩,
        ⟨739252, 1, some 80, none, none, none, none⟩] : List ScaleSample).filter
        (fun s => s.day == 739252) =
        [⟨739252, 0, none, none, none, none, none⟩,
         ⟨739252, 1, some 80, none, none, none, none⟩] from by decide]
  simp only [List.map_cons, List.map_nil]
  rw [show meanOfPresent [none, some (80 : ℚ)] = some 80 from by simp [meanOfPresent],
      show meanOfPresent ([none, none] : List (Option ℚ)) = none from by simp [meanOfPresent]]

/-- C9: the weekly pivot of an empty sample set is a zero-row table that still
    carries the full output column schema, and no error is raised. -/
theorem pivot_weekly_empty_keeps_schema :
    pivot_scale_measurements_weekly [] =
      ⟨["Week number", "Weight (kg)", "Muscle mass (kg)", "Hydration (kg)",
        "Fat mass (kg)", "Bone mass (kg)"], []⟩ := by decide

/-- C5: for both sources the samples fed to the aggregation are exactly those in
    the half-open window: membership in the filtered rows is membership in the
    input plus start <= timestamp < end, the API-path emptiness guard changes
    nothing, and concretely a row exactly at the start instant is kept while a
    row exactly at the end instant is dropped. -/
theorem fetch_measures_window :
    (∀ (rows : List TsRow) (s e : ℤ) (r : TsRow),
      r ∈ filter_in_range rows s e ↔ r ∈ rows ∧ s ≤ r.ts ∧ r.ts < e) ∧
    (∀ (rows : List TsRow) (s e : ℤ),
      api_filter_in_range rows s e = filter_in_range rows s e) ∧
    filter_in_range [⟨0, 1⟩, ⟨5, 2⟩, ⟨10, 3⟩] 0 10 = [⟨0, 1⟩, ⟨5, 2⟩] := by
  refine ⟨?_, ?_, by decide⟩
  · intro rows s e r
    simp [filter_in_range, List.mem_filter]
  · intro rows s e
    cases rows with
    | nil => simp [api_filter_in_range, filter_in_range]
    | cons a l => simp [api_filter_in_range]

/-- Witness for C5: the window characterization and the guard identity applied
    at a concrete list with a row at the start boundary and one at the end. -/
theorem fetch_measures_window_witness :
    ((⟨0, 1⟩ : TsRow) ∈ filter_in_range [⟨0, 1⟩, ⟨10, 3⟩] 0 10 ↔
      (⟨0, 1⟩ : TsRow) ∈ [(⟨0, 1⟩ : TsRow), ⟨10, 3⟩] ∧ (0 : ℤ) ≤ 0 ∧ (0 : ℤ) < 10) ∧
    api_filter_in_range [⟨0, 1⟩, ⟨10, 3⟩] 0 10 =
      filter_in_range [⟨0, 1⟩, ⟨10, 3⟩] 0 10 :=
  ⟨fetch_measures_window.1 _ _ _ _, fetch_measures_window.2.1 _ _ _⟩

theorem mem_insertByTs (x y : MeasureGroupRec) (l : List MeasureGroupRec) :
    y ∈ insertByTs x l ↔ y = x ∨ y ∈ l := by
  induction l with
  | nil => simp [insertByTs]
  | cons a as ih =>
    simp only [insertByTs]
    split_ifs with h
    · simp only [List.mem_cons, ih]
      tauto
    · simp only [List.mem_cons]

theorem mem_sort_values_ts (y : MeasureGroupRec) (l : List MeasureGroupRec) :
    y ∈ sort_values_ts l ↔ y ∈ l := by
  induction l with
  | nil => simp [sort_values_ts]
  | cons a as ih =>
    rw [show sort_values_ts (a :: as) = insertByTs a (sort_values_ts as) from rfl,
      mem_insertByTs]
    simp only [List.mem_cons, ih]

theorem drop_duplicates_keep_last_subset (l : List MeasureGroupRec)
    (x : MeasureGroupRec) (h : x ∈ drop_duplicates_keep_last l) : x ∈ l := by
  induction l with
  | nil => simp [drop_duplicates_keep_last] at h
  | cons a as ih =>
    simp only [drop_duplicates_keep_last] at h
    split_ifs at h with hc
    · exact List.mem_cons_of_mem _ (ih h)
    · rcases List.mem_cons.mp h with h | h
      · exact h ▸ List.mem_cons_self _ _
      · exact List.mem_cons_of_mem _ (ih h)

theorem drop_duplicates_keep_last_covers (l : List MeasureGroupRec) :
    ∀ x ∈ l, ∃ y ∈ drop_duplicates_keep_last l, y.group_id = x.group_id := by
  induction l with
  | nil => intro x hx; cases hx
  | cons a as ih =>
    intro x hx
    simp only [drop_duplicates_keep_last]
    split_ifs with hc
    · rcases List.mem_cons.mp hx with rfl | hx'
      · rcases List.any_eq_true.mp hc with ⟨z, hz, hzg⟩
        have hg : z.group_id = x.group_id := by simpa using hzg
        obtain ⟨y, hy, hyg⟩ := ih z hz
        exact ⟨y, hy, by omega⟩
      · exact ih x hx'
    · rcases List.mem_cons.mp hx with rfl | hx'
      · exact ⟨x, List.mem_cons_self _ _, rfl⟩
      · obtain ⟨y, hy, hyg⟩ := ih x hx'
        exact ⟨y, List.mem_cons_of_mem _ hy, hyg⟩

theorem drop_duplicates_keep_last_nodup (l : List MeasureGroupRec) :
    ((drop_duplicates_keep_last l).map (fun r => r.group_id)).Nodup := by
  induction l with
  | nil => simp [drop_duplicates_keep_last]
  | cons a as ih =>
    simp only [drop_duplicates_keep_last]
    split_ifs with hc
    · exact ih
    · simp only [List.map_cons, List.nodup_cons]
      refine ⟨?_, ih⟩
      intro hmem
      rcases List.mem_map.mp hmem with ⟨y, hy, hyg⟩
      have hyas := drop_duplicates_keep_last_subset as y hy
      exact absurd (List.any_eq_true.mpr ⟨y, hyas, by simp [hyg]⟩) hc

theorem fetch_pages_loop_log_pos (p : MeasurePage) (rest : List MeasurePage)
    (cur : Option ℤ) (cnt : ℕ) (mp : Option ℕ) :
    1 ≤ (fetch_pages_loop (p :: rest) cur cnt mp).1.length := by
  simp only [fetch_pages_loop]
  split_ifs <;> simp

theorem fetch_pages_loop_continue_iff (p q : MeasurePage) (rest : List MeasurePage)
    (cur : Option ℤ) (cnt : ℕ) (mp : Option ℕ) :
    2 ≤ (fetch_pages_loop (p :: q :: rest) cur cnt mp).1.length ↔
      p.more = 1 ∧ p.offset ≠ none ∧ ∀ m, mp = some m → cnt + 1 < m := by
  have hpos := fetch_pages_loop_log_pos q rest p.offset (cnt + 1) mp
  cases mp with
  | none =>
    simp only [fetch_pages_loop]
    by_cases hstop : p.more ≠ 1 ∨ p.offset = none
    · rw [if_neg (by simp), if_pos hstop]
      constructor
      · intro hlen; simp at hlen
      · rintro ⟨h1, h2, _⟩
        rcases hstop with h | h
        · exact absurd h1 h
        · exact absurd h h2
    · rw [if_neg (by simp), if_neg hstop]
      push_neg at hstop
      constructor
      · intro _
        exact ⟨hstop.1, hstop.2, by intro m hm; cases hm⟩
      · intro _
        split_ifs <;> simp
  | some m =>
    simp only [fetch_pages_loop]
    by_cases hcap : m ≤ cnt + 1
    · rw [if_pos (by simpa using hcap)]
      constructor
      · intro hlen; simp at hlen
      · rintro ⟨h1, h2, h3⟩
        have := h3 m rfl
        omega
    · rw [if_neg (by simpa using hcap)]
      by_cases hstop : p.more ≠ 1 ∨ p.offset = none
      · rw [if_pos hstop]
        constructor
        · intro hlen; simp at hlen
        · rintro ⟨h1, h2, _⟩
          rcases hstop with h | h
          · exact absurd h1 h
          · exact absurd h h2
      · rw [if_neg hstop]
        push_neg at hstop
        constructor
        · intro _
          refine ⟨hstop.1, hstop.2, ?_⟩
          intro m' hm'
          rw [Option.some_inj] at hm'
          omega
        · intro _
          split_ifs <;> simp

/-- C7: for a first page with more=1 and offset=123 followed by a page with
    more=0, the driver performs exactly two requests (the first with no offset,
    the second at offset 123), collects the union of both pages in order, and
    the final result is that union sorted by timestamp with duplicate batch ids
    dropped keeping the last occurrence — its batch ids are free of duplicates
    and cover exactly the fetched groups; in general the loop issues a further
    request exactly when the response reports more data, carries a resume
    offset, and the page cap is not yet reached. -/
theorem fetch_all_pagination (g1 g2 : List MeasureGroupRec) (o2 : Option ℤ) :
    (fetch_pages_loop [⟨g1, 1, some 123⟩, ⟨g2, 0, o2⟩] none 0 none).1 =
      [none, some 123] ∧
    (fetch_pages_loop [⟨g1, 1, some 123⟩, ⟨g2, 0, o2⟩] none 0 none).2 = g1 ++ g2 ∧
    (fetch_scale_measurements_all [⟨g1, 1, some 123⟩, ⟨g2, 0, o2⟩] none).2 =
      drop_duplicates_keep_last (sort_values_ts (g1 ++ g2)) ∧
    (∀ x, x ∈ (fetch_scale_measurements_all [⟨g1, 1, some 123⟩, ⟨g2, 0, o2⟩] none).2 →
      x ∈ g1 ++ g2) ∧
    (∀ x ∈ g1 ++ g2,
      ∃ y ∈ (fetch_scale_measurements_all [⟨g1, 1, some 123⟩, ⟨g2, 0, o2⟩] none).2,
        y.group_id = x.group_id) ∧
    ((fetch_scale_measurements_all [⟨g1, 1, some 123⟩, ⟨g2, 0, o2⟩] none).2.map
      (fun r => r.group_id)).Nodup ∧
    (∀ (p q : MeasurePage) (rest : List MeasurePage) (cur : Option ℤ) (cnt : ℕ)
        (mp : Option ℕ),
      2 ≤ (fetch_pages_loop (p :: q :: rest) cur cnt mp).1.length ↔
        p.more = 1 ∧ p.offset ≠ none ∧ ∀ m, mp = some m → cnt + 1 < m) := by
  have hloop : fetch_pages_loop [⟨g1, 1, some 123⟩, ⟨g2, 0, o2⟩] none 0 none =
      ([none, some 123], g1 ++ g2) := by
    simp [fetch_pages_loop]
  have hall : (fetch_scale_measurements_all [⟨g1, 1, some 123⟩, ⟨g2, 0, o2⟩] none).2 =
      drop_duplicates_keep_last (sort_values_ts (g1 ++ g2)) := by
    simp only [fetch_scale_measurements_all, hloop]
  refine ⟨by rw [hloop], by rw [hloop], hall, ?_, ?_, ?_, fetch_pages_loop_continue_iff⟩
  · intro x hx
    rw [hall] at hx
    exact (mem_sort_values_ts x (g1 ++ g2)).mp
      (drop_duplicates_keep_last_subset _ x hx)
  · intro x hx
    rw [hall]
    exact drop_duplicates_keep_last_covers _ x ((mem_sort_values_ts x (g1 ++ g2)).mpr hx)
  · rw [hall]
    exact drop_duplicates_keep_last_nodup _

/-- Witness for C7: the two-page scenario instantiated with one concrete group
    per page (the groups from the repository test), plus the loop-continuation
    characterization at the first page. -/
theorem fetch_all_pagination_witness :
    (fetch_pages_loop [⟨[⟨1, 1700000000⟩], 1, some 123⟩, ⟨[⟨2, 1700000100⟩], 0, none⟩]
        none 0 none).1 = [none, some 123] ∧
    (fetch_scale_measurements_all
        [⟨[⟨1, 1700000000⟩], 1, some 123⟩, ⟨[⟨2, 1700000100⟩], 0, none⟩] none).2 =
      [⟨1, 1700000000⟩, ⟨2, 1700000100⟩] ∧
    ((fetch_scale_measurements_all
        [⟨[⟨1, 1700000000⟩], 1, some 123⟩, ⟨[⟨2, 1700000100⟩], 0, none⟩] none).2.map
      (fun r => r.group_id)).Nodup := by
  refine ⟨(fetch_all_pagination [⟨1, 1700000000⟩] [⟨2, 1700000100⟩] none).1,
    by decide, (fetch_all_pagination [⟨1, 1700000000⟩] [⟨2, 1700000100⟩] none).2.2.2.2.2.1⟩

/-- C8 counterexample: with every required column present and a Date value
    "notadate" that cannot be converted, the failure message is the fixed string
    and does not contain the offending value, so the failure does not list every
    offending value as claimed. -/
theorem read_withings_csv_date_error_lists_nothing :
    read_withings_csv EXPECTED_CSV_COLS ["2025-01-01", "notadate"] demoDateParse =
      Except.error "Some Date values could not be parsed." ∧
    containsSeq "notadate".data "Some Date values could not be parsed.".data = false := by
  decide

/-- C8 amended: the known header case variants are normalized to canonical names
    before the required-columns check runs; a missing-columns failure names every
    required column absent after normalization; an unparseable Date value is a
    fatal failure, but its message is a fixed string that does not list the
    offending values. -/
theorem read_withings_csv_error_reporting :
    (∀ (headers dates : List String) (p : String → Option ℤ),
      missing_columns headers ≠ [] →
      read_withings_csv headers dates p =
        Except.error ("Missing required columns: " ++ joinCommaSep (missing_columns headers))) ∧
    (∀ (headers dates : List String) (p : String → Option ℤ),
      missing_columns headers = [] → (∃ v ∈ dates, p v = none) →
      read_withings_csv headers dates p =
        Except.error "Some Date values could not be parsed.") ∧
    missing_columns ["Date", "Weight (kg)", "Fat Mass (kg)", "Muscle Mass (kg)",
      "Bone Mass (kg)", "Hydration (Kg)"] = [] ∧
    missing_columns ["Date"] = ["Weight (kg)", "Fat mass (kg)", "Muscle mass (kg)",
      "Bone mass (kg)", "Hydration (kg)"] := by
  refine ⟨?_, ?_, by decide, by decide⟩
  · intro headers dates p hm
    simp only [read_withings_csv, if_pos hm]
  · intro headers dates p hm hex
    have hmem : (none : Option ℤ) ∈ dates.map p := by
      rcases hex with ⟨v, hv, hpv⟩
      exact List.mem_map.mpr ⟨v, hv, hpv⟩
    have hc : (dates.map p).contains none = true := List.elem_eq_true_of_mem hmem
    rw [read_withings_csv, if_neg (by simp [hm]), if_pos hc]

/-- Witness for C8: the amended error-reporting facts applied at concrete inputs:
    a file with only a Date column fails naming all five missing metric columns,
    and a file with all columns but a bad date fails with the fixed message. -/
theorem read_withings_csv_error_reporting_witness :
    (missing_columns ["Date"] ≠ [] ∧
      read_withings_csv ["Date"] [] demoDateParse =
        Except.error ("Missing required columns: " ++
          joinCommaSep (missing_columns ["Date"]))) ∧
    (missing_columns EXPECTED_CSV_COLS = [] ∧ demoDateParse "notadate" = none ∧
      read_withings_csv EXPECTED_CSV_COLS ["notadate"] demoDateParse =
        Except.error "Some Date values could not be parsed.") := by
  refine ⟨⟨by decide, read_withings_csv_error_reporting.1 ["Date"] [] demoDateParse
      (by decide)⟩,
    by decide, by decide,
    read_withings_csv_error_reporting.2.1 EXPECTED_CSV_COLS ["notadate"] demoDateParse
      (by decide) ⟨"notadate", by simp, by decide⟩⟩

end W2W
